import Mathlib

/-!
# Verification of the monodeploy changelog writer

The repository's changelog slice consists of a Target Resolver (partition a
changeset across target changelog files) and a Marker Inserter (insert the
rendered entries immediately below a fixed marker in each target file).
Only the test suite for `prependChangelogFile` ships in this slice, so the
writer itself is modelled from the specification, with strings embedded as
lists of characters and the filesystem as an association list from paths to
file states.  Every filesystem effect the writer performs is recorded in an
operation log so that frame conditions (no reads, no writes, no directory
creation) are statable.
-/

namespace Monodeploy

/-- Strings of the embedded program, as lists of characters. -/
abbrev Str := List Char

/-- Modelled from the spec: one changeset record, `{version, changelog}`
(§3 Data Model, "Changeset"). -/
structure ChangelogEntry where
  version : Str
  changelog : Str
deriving Repr, DecidableEq

/-- Modelled from the spec: a changeset is a mapping from package identifier
to its entry; represented as an association list so that insertion order is
kept (§3: insertion order determines concatenation order). -/
abbrev Changeset := List (Str × ChangelogEntry)

/-- Modelled from the spec: a workspace handle exposing only its package
identifier and its on-disk root directory (§3, "Workspace reference"). -/
structure Workspace where
  ident : Str
  dir : Str
deriving Repr, DecidableEq

/-- Modelled from the spec: a resolved (target file path, changeset subset)
pair (§3, "Target descriptor"). -/
structure TargetDescriptor where
  path : Str
  subset : Changeset
deriving Repr, DecidableEq

/-- Modelled from the spec: the per-package path token recognised in a
filename template (§6, e.g. a template like `<packageDir>/CHANGELOG.md`). -/
def packageDirToken : Str := "<packageDir>".toList

/-- Modelled from the spec: the literal insertion marker
`<!-- MONODEPLOY:BELOW -->` (§6, Filesystem contract). -/
def changelogMarker : Str := "<!-- MONODEPLOY:BELOW -->".toList

/-- `matchesAt needle hay` holds when `needle` is an initial segment of
`hay`; the primitive on which the plain substring search is built. -/
def matchesAt : Str → Str → Bool
  | [], _ => true
  | _ :: _, [] => false
  | c :: n, d :: h => c == d && matchesAt n h

/-- Plain substring search splitting at the first occurrence of `needle`:
`some (before, after)` with the occurrence removed, `none` when absent. -/
def splitAtFirst (needle : Str) : Str → Option (Str × Str)
  | [] => if matchesAt needle [] then some ([], []) else none
  | c :: rest =>
    if matchesAt needle (c :: rest) then some ([], (c :: rest).drop needle.length)
    else (splitAtFirst needle rest).map fun p => (c :: p.1, p.2)

/-- `strContains hay needle`: the spec's marker test, a plain substring
search (§9, Marker search semantics). -/
def strContains (hay needle : Str) : Bool := (splitAtFirst needle hay).isSome

/-- Substitute the first occurrence of the per-package token in a filename
template with a workspace directory. -/
def substituteToken (tmpl dir : Str) : Str :=
  match splitAtFirst packageDirToken tmpl with
  | some p => p.1 ++ dir ++ p.2
  | none => tmpl

/-- Modelled from the spec: render one entry; the exact format is an
external collaborator's template, constrained only in that the changelog
text appears verbatim and contiguous (§4.2 step 3). -/
def renderEntry (e : ChangelogEntry) : Str := e.version ++ ['\n'] ++ e.changelog

/-- Modelled from the spec: the rendered block, entries concatenated in the
changeset's insertion order (§4.2 step 3). -/
def renderBlock : Changeset → Str
  | [] => []
  | pe :: rest => renderEntry pe.2 ++ ['\n'] ++ renderBlock rest

/-- Modelled from the spec: the Target Resolver (§4.1).  Empty/absent
template: feature disabled, no descriptors.  Template with the per-package
token: one descriptor per workspace, token substituted by the workspace
directory, subset filtered to that workspace's entries.  Otherwise: a single
descriptor carrying the full, unfiltered changeset. -/
def resolveTargets (filenameTemplate : Option Str) (changeset : Changeset)
    (workspaces : List Workspace) : List TargetDescriptor :=
  match filenameTemplate with
  | none => []
  | some tmpl =>
    if tmpl = [] then []
    else if strContains tmpl packageDirToken then
      workspaces.map fun w =>
        { path := substituteToken tmpl w.dir
          subset := changeset.filter fun pe => pe.1 == w.ident }
    else
      [{ path := tmpl, subset := changeset }]

/-- State of one path in the modelled filesystem. -/
inductive FileState where
  | absent
  | unreadable
  | readable (content : Str)
deriving Repr, DecidableEq

/-- The filesystem: an association list from path to file state; earlier
bindings shadow later ones. -/
abbrev FileSystem := List (Str × FileState)

/-- Look a path up in the filesystem; unbound paths are absent. -/
def FileSystem.lookup (fs : FileSystem) (p : Str) : FileState :=
  match fs.find? (fun e => e.1 == p) with
  | some e => e.2
  | none => .absent

/-- Whole-file overwrite of one path. -/
def FileSystem.setFile (fs : FileSystem) (p : Str) (c : Str) : FileSystem :=
  (p, FileState.readable c) :: fs

/-- One logged filesystem effect of the writer. -/
inductive FsOp where
  | read (path : Str)
  | mkdirRecursive (dir : Str)
  | write (path : Str) (content : Str)
deriving Repr, DecidableEq

/-- Modelled from the spec: the writer's error taxonomy (§7). -/
inductive InsertError where
  | unreadableFile (path : Str)
  | missingMarker (path : Str)
deriving Repr, DecidableEq

/-- Outcome of a run: resulting filesystem, the log of effects performed,
and the error that aborted it, if any. -/
structure RunResult where
  fs : FileSystem
  ops : List FsOp
  error : Option InsertError
deriving Repr, DecidableEq

/-- The characters of `p` strictly before its last path separator; the
parent directory passed to recursive directory creation. -/
def parentDir (p : Str) : Str :=
  ((p.reverse.dropWhile fun c => c != '/').drop 1).reverse

/-- Modelled from the spec: steps 3–7 of the Marker Inserter (§4.2) once the
content has been split at the first marker occurrence into `before` and
`after`.  New content is before ++ marker ++ newline ++ block ++ newline ++
after; dry run stops before any mutation; otherwise the parent directory is
created recursively and the file is wholly overwritten. -/
def finishInsert (fs : FileSystem) (target : TargetDescriptor) (dryRun : Bool)
    (before after : Str) : RunResult :=
  let newContent :=
    before ++ changelogMarker ++ ['\n'] ++ renderBlock target.subset ++ ['\n'] ++ after
  if dryRun then
    { fs := fs, ops := [.read target.path], error := none }
  else
    { fs := fs.setFile target.path newContent
      ops := [.read target.path, .mkdirRecursive (parentDir target.path),
              .write target.path newContent]
      error := none }

/-- Modelled from the spec: the Marker Inserter (§4.2).  Reads the target:
unreadable fails with `UnreadableFileError`; absent proceeds on a
synthesized document of just the marker (so `before = after = []`); readable
content is searched for the marker as a plain substring, failing with
`MissingMarkerError` when absent, otherwise split at the first occurrence. -/
def insert (fs : FileSystem) (target : TargetDescriptor) (dryRun : Bool) : RunResult :=
  match fs.lookup target.path with
  | .unreadable =>
      { fs := fs, ops := [.read target.path], error := some (.unreadableFile target.path) }
  | .absent => finishInsert fs target dryRun [] []
  | .readable c =>
    match splitAtFirst changelogMarker c with
    | none =>
        { fs := fs, ops := [.read target.path], error := some (.missingMarker target.path) }
    | some p => finishInsert fs target dryRun p.1 p.2

/-- Modelled from the spec: apply the Marker Inserter once per target,
sequentially, stopping at the first failing target (§4.2 failure semantics,
§9 recommended abort-on-first policy). -/
def processTargets (fs : FileSystem) (dryRun : Bool) :
    List TargetDescriptor → RunResult
  | [] => { fs := fs, ops := [], error := none }
  | t :: rest =>
    let r := insert fs t dryRun
    match r.error with
    | some e => { fs := r.fs, ops := r.ops, error := some e }
    | none =>
      let r2 := processTargets r.fs dryRun rest
      { fs := r2.fs, ops := r.ops ++ r2.ops, error := r2.error }

/-- Modelled from the spec: the configuration slice the writer consumes
(§6): the changelog filename (empty/absent disables the feature) and the
dry-run flag. -/
structure MonodeployConfig where
  changelogFilename : Option Str
  dryRun : Bool
deriving Repr, DecidableEq

/-- Modelled from the spec: the whole Changelog Writer, `prependChangelogFile`
(§2 control flow): Target Resolver partitions work, Marker Inserter is
applied once per target file. -/
def prependChangelogFile (config : MonodeployConfig) (changeset : Changeset)
    (workspaces : List Workspace) (fs : FileSystem) : RunResult :=
  processTargets fs config.dryRun
    (resolveTargets config.changelogFilename changeset workspaces)

/-- Whether the file at `p` is readable and its content contains `needle` as
a substring; the observation the test suite makes on resulting files. -/
def fileContains (fs : FileSystem) (p needle : Str) : Bool :=
  match fs.lookup p with
  | .readable c => strContains c needle
  | _ => false

/-! ## Concrete scenarios drawn from the test suite -/

def changelogC2pkg1 : Str := "wowchanges\nthisisachangelog".toList

def changelogC2pkg2 : Str := "just a version bump".toList

def csC2 : Changeset :=
  [("pkg-1".toList, ⟨"1.0.0".toList, changelogC2pkg1⟩),
   ("pkg-2".toList, ⟨"1.1.0".toList, changelogC2pkg2⟩)]

def wsC2 : List Workspace :=
  [⟨"pkg-1".toList, "/repo/packages/pkg-1".toList⟩,
   ⟨"pkg-2".toList, "/repo/packages/pkg-2".toList⟩]

def tmplC2 : Str := "<packageDir>/CHANGELOG.md".toList

def pathC2pkg1 : Str := "/repo/packages/pkg-1/CHANGELOG.md".toList

def pathC2pkg2 : Str := "/repo/packages/pkg-2/CHANGELOG.md".toList

/-- The templated two-workspace run from the test suite, starting from an
empty filesystem. -/
def runC2 : RunResult := prependChangelogFile ⟨some tmplC2, false⟩ csC2 wsC2 []

def csW1 : Changeset := [("pkg-1".toList, ⟨"1.0.0".toList, "wowchanges".toList⟩)]

def tW1 : TargetDescriptor := ⟨"CHANGELOG.md".toList, csW1⟩

def bW1 : Str := "# Changelog\n".toList

def aW1 : Str := "\nold entry\n".toList

def cW1 : Str := bW1 ++ changelogMarker ++ aW1

def fsW1 : FileSystem := [(tW1.path, .readable cW1)]

def cW3 : Str := "wonomarker".toList

def tW3 : TargetDescriptor := ⟨"CL3.md".toList, csW1⟩

def fsW3 : FileSystem := [(tW3.path, .readable cW3)]

def tW4 : TargetDescriptor := ⟨"CL4.md".toList, csW1⟩

def fsW4 : FileSystem := [(tW4.path, .unreadable)]

def cW5 : Str := changelogMarker

def tW5 : TargetDescriptor := ⟨"CL5.md".toList, csW1⟩

def fsW5 : FileSystem := [(tW5.path, .readable cW5)]

def cfgW6 : MonodeployConfig := ⟨none, false⟩

def tW7 : TargetDescriptor :=
  ⟨"pkgdir/CHANGELOG.md".toList,
   [("pkg-1".toList, ⟨"2.0.0".toList, "new stuff".toList⟩)]⟩

def bW8 : Str := "top\n".toList

def aW8 : Str := "\nmid\n".toList ++ changelogMarker ++ "\nend\n".toList

def cW8 : Str := bW8 ++ changelogMarker ++ aW8

def tW8 : TargetDescriptor := ⟨"CL8.md".toList, csW1⟩

def fsW8 : FileSystem := [(tW8.path, .readable cW8)]

def tmplC9 : Str := "<packageDir>/NEWS.md".toList

def csC9 : Changeset := [("px".toList, ⟨"3.0.0".toList, "notes".toList⟩)]

def tmplC10 : Str := "CHANGELOG10.md".toList

def csC10 : Changeset :=
  [("pkg-1".toList, ⟨"1.0.0".toList, "alpha".toList⟩),
   ("pkg-2".toList, ⟨"2.0.0".toList, "beta".toList⟩)]

def wsC10 : List Workspace := [⟨"pkg-9".toList, "/repo/packages/pkg-9".toList⟩]

def fsC10 : FileSystem := [(tmplC10, .readable changelogMarker)]

/-! ## Basic lemmas about the substring search and the renderer -/

theorem matchesAt_iff (n h : Str) : matchesAt n h = true ↔ ∃ t, n ++ t = h := by
  induction n generalizing h with
  | nil => simp [matchesAt]
  | cons c n ih =>
    cases h with
    | nil => simp [matchesAt]
    | cons d h =>
      simp only [matchesAt, Bool.and_eq_true, beq_iff_eq, ih, List.cons_append,
        List.cons.injEq]
      constructor
      · rintro ⟨hc, t, ht⟩
        exact ⟨t, hc, ht⟩
      · rintro ⟨t, hc, ht⟩
        exact ⟨hc, t, ht⟩

theorem splitAtFirst_eq {n h b a : Str} (hs : splitAtFirst n h = some (b, a)) :
    h = b ++ n ++ a := by
  induction h generalizing b a with
  | nil =>
    rw [splitAtFirst] at hs
    by_cases hm : matchesAt n [] = true
    · rw [if_pos hm] at hs
      rcases (matchesAt_iff n []).1 hm with ⟨t, ht⟩
      rcases List.append_eq_nil.1 ht with ⟨hn, -⟩
      simp only [Option.some.injEq, Prod.mk.injEq] at hs
      simp [← hs.1, ← hs.2, hn]
    · rw [if_neg hm] at hs
      exact Option.noConfusion hs
  | cons c rest ih =>
    rw [splitAtFirst] at hs
    by_cases hm : matchesAt n (c :: rest) = true
    · rw [if_pos hm] at hs
      rcases (matchesAt_iff n (c :: rest)).1 hm with ⟨t, ht⟩
      simp only [Option.some.injEq, Prod.mk.injEq] at hs
      rw [← hs.1, ← hs.2, ← ht, List.drop_left]
      simp
    · rw [if_neg hm] at hs
      rcases Option.map_eq_some'.1 hs with ⟨⟨b0, a0⟩, hrec, hpair⟩
      simp only [Prod.mk.injEq] at hpair
      rw [← hpair.1, ← hpair.2]
      have := ih hrec
      simp [this]

theorem splitAtFirst_min {n h b a : Str} (hs : splitAtFirst n h = some (b, a)) :
    ∀ b2 a2 : Str, h = b2 ++ n ++ a2 → b.length ≤ b2.length := by
  induction h generalizing b a with
  | nil =>
    intro b2 a2 _
    rw [splitAtFirst] at hs
    by_cases hm : matchesAt n [] = true
    · rw [if_pos hm] at hs
      simp only [Option.some.injEq, Prod.mk.injEq] at hs
      simp [← hs.1]
    · rw [if_neg hm] at hs
      exact Option.noConfusion hs
  | cons c rest ih =>
    intro b2 a2 hdecomp
    rw [splitAtFirst] at hs
    by_cases hm : matchesAt n (c :: rest) = true
    · rw [if_pos hm] at hs
      simp only [Option.some.injEq, Prod.mk.injEq] at hs
      simp [← hs.1]
    · rw [if_neg hm] at hs
      rcases Option.map_eq_some'.1 hs with ⟨⟨b0, a0⟩, hrec, hpair⟩
      simp only [Prod.mk.injEq] at hpair
      cases b2 with
      | nil =>
        exfalso
        apply hm
        exact (matchesAt_iff n (c :: rest)).2 ⟨a2, by simpa using hdecomp.symm⟩
      | cons c2 b2t =>
        simp only [List.cons_append, List.cons.injEq] at hdecomp
        have hle := ih hrec b2t a2 hdecomp.2
        rw [← hpair.1]
        simpa using Nat.succ_le_succ hle

theorem splitAtFirst_isSome {n h b2 a2 : Str} (hdecomp : h = b2 ++ n ++ a2) :
    (splitAtFirst n h).isSome = true := by
  induction h generalizing b2 with
  | nil =>
    rcases List.append_eq_nil.1 hdecomp.symm with ⟨h1, -⟩
    rcases List.append_eq_nil.1 h1 with ⟨-, hn⟩
    rw [splitAtFirst, if_pos ((matchesAt_iff n []).2 ⟨[], by simp [hn]⟩)]
    rfl
  | cons c rest ih =>
    rw [splitAtFirst]
    by_cases hm : matchesAt n (c :: rest) = true
    · rw [if_pos hm]; rfl
    · rw [if_neg hm]
      cases b2 with
      | nil =>
        exact absurd ((matchesAt_iff n (c :: rest)).2 ⟨a2, by simpa using hdecomp.symm⟩) hm
      | cons c2 b2t =>
        simp only [List.cons_append, List.cons.injEq] at hdecomp
        rcases Option.isSome_iff_exists.1 (ih hdecomp.2) with ⟨p, hp⟩
        rw [hp]
        rfl

theorem renderBlock_append (xs ys : Changeset) :
    renderBlock (xs ++ ys) = renderBlock xs ++ renderBlock ys := by
  induction xs with
  | nil => simp [renderBlock]
  | cons pe rest ih => simp [renderBlock, ih]

theorem renderBlock_contains {cs : Changeset} {pe : Str × ChangelogEntry}
    (hmem : pe ∈ cs) :
    ∃ u v : Str, renderBlock cs = u ++ pe.2.changelog ++ v := by
  induction cs with
  | nil => cases hmem
  | cons q rest ih =>
    rcases List.mem_cons.1 hmem with heq | hmem2
    · subst heq
      exact ⟨pe.2.version ++ ['\n'], ['\n'] ++ renderBlock rest, by
        simp [renderBlock, renderEntry]⟩
    · rcases ih hmem2 with ⟨u, v, hu⟩
      exact ⟨renderEntry q.2 ++ ['\n'] ++ u, v, by simp [renderBlock, hu]⟩

theorem lookup_setFile_self (fs : FileSystem) (p c : Str) :
    (fs.setFile p c).lookup p = .readable c := by
  simp [FileSystem.lookup, FileSystem.setFile, List.find?]

theorem insert_readable_eq {fs : FileSystem} {t : TargetDescriptor} {c b a : Str}
    {dryRun : Bool} (hread : fs.lookup t.path = .readable c)
    (hsplit : splitAtFirst changelogMarker c = some (b, a)) :
    insert fs t dryRun = finishInsert fs t dryRun b a := by
  simp [insert, hread, hsplit]

theorem strContains_eq_false_iff (hay needle : Str) :
    strContains hay needle = false ↔ splitAtFirst needle hay = none := by
  cases h : splitAtFirst needle hay with
  | none => simp [strContains, h]
  | some p => simp [strContains, h]

/-! ## The claims -/

/-- Claim C1: for an existing readable target whose content splits at the
first marker occurrence into `b` and `a`, a successful non-dry-run insert
yields content b ++ marker ++ newline ++ rendered block ++ newline ++ a,
with the original text after the marker unchanged, the block concatenated in
the changeset's insertion order, and each entry's changelog text verbatim
and contiguous inside it. -/
theorem insert_marker_success {fs : FileSystem} {t : TargetDescriptor} {c b a : Str}
    (hread : fs.lookup t.path = .readable c)
    (hsplit : splitAtFirst changelogMarker c = some (b, a)) :
    c = b ++ changelogMarker ++ a ∧
    insert fs t false =
      { fs := fs.setFile t.path
          (b ++ changelogMarker ++ ['\n'] ++ renderBlock t.subset ++ ['\n'] ++ a)
        ops := [.read t.path, .mkdirRecursive (parentDir t.path),
          .write t.path
            (b ++ changelogMarker ++ ['\n'] ++ renderBlock t.subset ++ ['\n'] ++ a)]
        error := none } ∧
    (insert fs t false).fs.lookup t.path =
      .readable (b ++ changelogMarker ++ ['\n'] ++ renderBlock t.subset ++ ['\n'] ++ a) ∧
    (∀ xs ys : Changeset, t.subset = xs ++ ys →
      renderBlock t.subset = renderBlock xs ++ renderBlock ys) ∧
    ∀ pe ∈ t.subset, ∃ u v : Str, renderBlock t.subset = u ++ pe.2.changelog ++ v := by
  have hins := @insert_readable_eq fs t c b a false hread hsplit
  refine ⟨splitAtFirst_eq hsplit, ?_, ?_, ?_, ?_⟩
  · rw [hins]; rfl
  · rw [hins]
    simp [finishInsert, lookup_setFile_self]
  · intro xs ys hxy
    rw [hxy, renderBlock_append]
  · intro pe hpe
    exact renderBlock_contains hpe

/-- Claim C3: when the target exists, is readable, and lacks the marker, the
call fails with MissingMarkerError before any write, the filesystem is
unchanged, and the error propagates to the caller of the whole writer
unmodified. -/
theorem insert_missing_marker {fs : FileSystem} {t : TargetDescriptor} {c : Str}
    {dryRun : Bool} (hread : fs.lookup t.path = .readable c)
    (hnomark : strContains c changelogMarker = false) :
    insert fs t dryRun =
      { fs := fs, ops := [.read t.path], error := some (.missingMarker t.path) } ∧
    (insert fs t dryRun).fs = fs ∧
    (insert fs t dryRun).fs.lookup t.path = .readable c ∧
    (∀ p content : Str, FsOp.write p content ∉ (insert fs t dryRun).ops) ∧
    ∀ (cfg : MonodeployConfig) (cs : Changeset) (wss : List Workspace),
      resolveTargets cfg.changelogFilename cs wss = [t] →
      prependChangelogFile cfg cs wss fs =
        { fs := fs, ops := [.read t.path], error := some (.missingMarker t.path) } := by
  have hnone : splitAtFirst changelogMarker c = none :=
    (strContains_eq_false_iff c changelogMarker).1 hnomark
  have hins : insert fs t dryRun =
      { fs := fs, ops := [.read t.path], error := some (.missingMarker t.path) } := by
    simp [insert, hread, hnone]
  refine ⟨hins, by rw [hins], by rw [hins]; exact hread, ?_, ?_⟩
  · intro p content
    rw [hins]
    simp
  · intro cfg cs wss hres
    have hins2 : insert fs t cfg.dryRun =
        { fs := fs, ops := [.read t.path], error := some (.missingMarker t.path) } := by
      simp [insert, hread, hnone]
    simp [prependChangelogFile, hres, processTargets, hins2]

/-- Claim C4: when the target exists but is unreadable, the call fails with
UnreadableFileError, attempts no write, leaves the filesystem unchanged, and
the error propagates to the caller of the whole writer without retry. -/
theorem insert_unreadable {fs : FileSystem} {t : TargetDescriptor} {dryRun : Bool}
    (hread : fs.lookup t.path = .unreadable) :
    insert fs t dryRun =
      { fs := fs, ops := [.read t.path], error := some (.unreadableFile t.path) } ∧
    (insert fs t dryRun).fs = fs ∧
    (∀ p content : Str, FsOp.write p content ∉ (insert fs t dryRun).ops) ∧
    ∀ (cfg : MonodeployConfig) (cs : Changeset) (wss : List Workspace),
      resolveTargets cfg.changelogFilename cs wss = [t] →
      prependChangelogFile cfg cs wss fs =
        { fs := fs, ops := [.read t.path], error := some (.unreadableFile t.path) } := by
  have hins : ∀ d : Bool, insert fs t d =
      { fs := fs, ops := [.read t.path], error := some (.unreadableFile t.path) } := by
    intro d
    simp [insert, hread]
  refine ⟨hins dryRun, by rw [hins dryRun], ?_, ?_⟩
  · intro p content
    rw [hins dryRun]
    simp
  · intro cfg cs wss hres
    simp [prependChangelogFile, hres, processTargets, hins cfg.dryRun]

/-- Claim C5: with dryRun true and a valid marker present, the call performs
the read (same validation as a real run) but no write and no directory
creation, leaves the filesystem untouched and succeeds; and validation
errors are still raised in dry-run mode. -/
theorem insert_dry_run {fs : FileSystem} {t : TargetDescriptor} {c : Str}
    (hread : fs.lookup t.path = .readable c)
    (hmark : strContains c changelogMarker = true) :
    insert fs t true = { fs := fs, ops := [.read t.path], error := none } ∧
    (insert fs t true).fs = fs ∧
    (∀ p content : Str, FsOp.write p content ∉ (insert fs t true).ops) ∧
    (∀ d : Str, FsOp.mkdirRecursive d ∉ (insert fs t true).ops) ∧
    FsOp.read t.path ∈ (insert fs t true).ops ∧
    ∀ (fs2 : FileSystem) (c2 : Str), fs2.lookup t.path = .readable c2 →
      strContains c2 changelogMarker = false →
      (insert fs2 t true).error = some (.missingMarker t.path) ∧
        (insert fs2 t true).fs = fs2 := by
  rcases Option.isSome_iff_exists.1 hmark with ⟨⟨b, a⟩, hsplit⟩
  have hins : insert fs t true = { fs := fs, ops := [.read t.path], error := none } := by
    rw [@insert_readable_eq fs t c b a true hread hsplit]
    rfl
  refine ⟨hins, by rw [hins], ?_, ?_, ?_, ?_⟩
  · intro p content
    rw [hins]
    simp
  · intro d
    rw [hins]
    simp
  · rw [hins]
    simp
  · intro fs2 c2 hread2 hnomark2
    have hnone2 : splitAtFirst changelogMarker c2 = none :=
      (strContains_eq_false_iff c2 changelogMarker).1 hnomark2
    have : insert fs2 t true =
        { fs := fs2, ops := [.read t.path], error := some (.missingMarker t.path) } := by
      simp [insert, hread2, hnone2]
    rw [this]
    exact ⟨rfl, rfl⟩

/-- Claim C6: when no changelog filename is configured (absent or empty), the
writer performs zero filesystem reads and writes, never fails, and leaves the
filesystem unchanged, whatever the changeset and workspace set. -/
theorem prepend_disabled {config : MonodeployConfig}
    (h : config.changelogFilename = none ∨ config.changelogFilename = some []) :
    ∀ (cs : Changeset) (wss : List Workspace) (fs : FileSystem),
      prependChangelogFile config cs wss fs = { fs := fs, ops := [], error := none } := by
  intro cs wss fs
  rcases h with h | h <;> simp [prependChangelogFile, resolveTargets, h, processTargets]

/-- Claim C7: for an absent target path and a non-empty changeset subset, a
non-dry-run insert succeeds, creates the parent directory recursively,
writes the file, and the created content contains the marker and every
rendered entry's changelog text — the missing file behaves as a synthesized
document of just the marker. -/
theorem insert_creates_file {fs : FileSystem} {t : TargetDescriptor}
    (habsent : fs.lookup t.path = .absent) (hne : t.subset ≠ []) :
    insert fs t false =
      { fs := fs.setFile t.path
          (changelogMarker ++ ['\n'] ++ renderBlock t.subset ++ ['\n'])
        ops := [.read t.path, .mkdirRecursive (parentDir t.path),
          .write t.path (changelogMarker ++ ['\n'] ++ renderBlock t.subset ++ ['\n'])]
        error := none } ∧
    FsOp.mkdirRecursive (parentDir t.path) ∈ (insert fs t false).ops ∧
    (insert fs t false).fs.lookup t.path =
      .readable (changelogMarker ++ ['\n'] ++ renderBlock t.subset ++ ['\n']) ∧
    (∃ u v : Str,
      changelogMarker ++ ['\n'] ++ renderBlock t.subset ++ ['\n'] =
        u ++ changelogMarker ++ v) ∧
    ∀ pe ∈ t.subset, ∃ u v : Str,
      changelogMarker ++ ['\n'] ++ renderBlock t.subset ++ ['\n'] =
        u ++ pe.2.changelog ++ v := by
  have hins : insert fs t false = finishInsert fs t false [] [] := by
    simp [insert, habsent]
  have hfin : finishInsert fs t false [] [] =
      { fs := fs.setFile t.path
          (changelogMarker ++ ['\n'] ++ renderBlock t.subset ++ ['\n'])
        ops := [.read t.path, .mkdirRecursive (parentDir t.path),
          .write t.path (changelogMarker ++ ['\n'] ++ renderBlock t.subset ++ ['\n'])]
        error := none } := by
    simp [finishInsert]
  refine ⟨hins.trans hfin, ?_, ?_, ?_, ?_⟩
  · rw [hins, hfin]
    simp
  · rw [hins, hfin]
    simp [lookup_setFile_self]
  · exact ⟨[], ['\n'] ++ renderBlock t.subset ++ ['\n'], by simp⟩
  · intro pe hpe
    rcases renderBlock_contains hpe with ⟨u, v, hu⟩
    exact ⟨changelogMarker ++ ['\n'] ++ u, v ++ ['\n'], by simp [hu]⟩

/-- Claim C8: marker matching is a plain substring search — whenever the
marker occurs in the content the search succeeds — and insertion uses the
position of the first occurrence (the returned prefix is the shortest over
all decompositions), so the result of insert is deterministic even when the
marker appears more than once. -/
theorem insert_first_occurrence {fs : FileSystem} {t : TargetDescriptor} {c b a : Str}
    (hread : fs.lookup t.path = .readable c)
    (hsplit : splitAtFirst changelogMarker c = some (b, a)) :
    c = b ++ changelogMarker ++ a ∧
    (∀ b2 a2 : Str, c = b2 ++ changelogMarker ++ a2 → b.length ≤ b2.length) ∧
    (∀ c2 b2 a2 : Str, c2 = b2 ++ changelogMarker ++ a2 →
      strContains c2 changelogMarker = true) ∧
    ∀ dryRun : Bool, insert fs t dryRun = finishInsert fs t dryRun b a := by
  refine ⟨splitAtFirst_eq hsplit, splitAtFirst_min hsplit, ?_, ?_⟩
  · intro c2 b2 a2 hdecomp
    exact splitAtFirst_isSome hdecomp
  · intro dryRun
    exact insert_readable_eq hread hsplit

/-- Claim C2: for a templated filename, resolution yields exactly one target
per workspace at the token-substituted path; each target's subset holds
exactly the changeset entries whose package identifier matches that
workspace; entries matching no workspace appear in no subset; and in the
test suite's two-package scenario pkg-1's file contains only pkg-1's
changelog text and pkg-2's file only pkg-2's. -/
theorem resolve_templated {tmpl : Str} (htok : strContains tmpl packageDirToken = true)
    (hne : tmpl ≠ []) :
    (∀ (cs : Changeset) (wss : List Workspace),
      resolveTargets (some tmpl) cs wss =
        wss.map fun w =>
          ⟨substituteToken tmpl w.dir, cs.filter fun pe => pe.1 == w.ident⟩) ∧
    (∀ (cs : Changeset) (wss : List Workspace),
      (resolveTargets (some tmpl) cs wss).length = wss.length) ∧
    (∀ (cs : Changeset) (wss : List Workspace),
      ∀ t ∈ resolveTargets (some tmpl) cs wss, ∃ w ∈ wss,
        t.path = substituteToken tmpl w.dir ∧
        ∀ pe : Str × ChangelogEntry, pe ∈ t.subset ↔ pe ∈ cs ∧ pe.1 = w.ident) ∧
    (∀ (cs : Changeset) (wss : List Workspace) (pe : Str × ChangelogEntry),
      pe ∈ cs → (∀ w ∈ wss, pe.1 ≠ w.ident) →
      ∀ t ∈ resolveTargets (some tmpl) cs wss, pe ∉ t.subset) ∧
    (runC2.error = none ∧
      fileContains runC2.fs pathC2pkg1 changelogC2pkg1 = true ∧
      fileContains runC2.fs pathC2pkg1 changelogC2pkg2 = false ∧
      fileContains runC2.fs pathC2pkg2 changelogC2pkg2 = true ∧
      fileContains runC2.fs pathC2pkg2 changelogC2pkg1 = false) := by
  have hmap : ∀ (cs : Changeset) (wss : List Workspace),
      resolveTargets (some tmpl) cs wss =
        wss.map fun w =>
          ⟨substituteToken tmpl w.dir, cs.filter fun pe => pe.1 == w.ident⟩ := by
    intro cs wss
    simp [resolveTargets, hne, htok]
  refine ⟨hmap, ?_, ?_, ?_, ?_⟩
  · intro cs wss
    rw [hmap]
    simp
  · intro cs wss t ht
    rw [hmap] at ht
    rcases List.mem_map.1 ht with ⟨w, hw, rfl⟩
    refine ⟨w, hw, rfl, ?_⟩
    intro pe
    simp [List.mem_filter]
  · intro cs wss pe hpe hno t ht
    rw [hmap] at ht
    rcases List.mem_map.1 ht with ⟨w, hw, rfl⟩
    simp only [List.mem_filter, beq_iff_eq]
    intro hcontra
    exact hno w hw hcontra.2
  · exact ⟨by decide, by decide, by decide, by decide, by decide⟩

/-- Claim C9: for a templated filename and an empty workspace set, target
resolution (a pure function of its arguments) yields zero descriptors, so
the whole call performs no filesystem operations and succeeds, even with a
non-empty changeset. -/
theorem resolve_templated_empty {tmpl : Str}
    (htok : strContains tmpl packageDirToken = true) :
    ∀ (cs : Changeset) (d : Bool) (fs : FileSystem),
      resolveTargets (some tmpl) cs [] = [] ∧
      prependChangelogFile ⟨some tmpl, d⟩ cs [] fs =
        { fs := fs, ops := [], error := none } := by
  intro cs d fs
  have hres : resolveTargets (some tmpl) cs [] = [] := by
    by_cases hne : tmpl = []
    · simp [resolveTargets, hne]
    · simp [resolveTargets, hne, htok]
  exact ⟨hres, by simp [prependChangelogFile, hres, processTargets]⟩

/-- Claim C10: for a global (non-templated, non-empty) filename the
workspace-set argument is ignored — resolution always yields the single
global target carrying the entire unfiltered changeset — and a successful
call with an empty workspace set writes every entry's changelog text to the
global file. -/
theorem resolve_global {tmpl : Str} (htok : strContains tmpl packageDirToken = false)
    (hne : tmpl ≠ []) :
    (∀ (cs : Changeset) (wss : List Workspace),
      resolveTargets (some tmpl) cs wss = [⟨tmpl, cs⟩]) ∧
    ∀ (cs : Changeset) (fs : FileSystem) (c b a : Str),
      fs.lookup tmpl = .readable c →
      splitAtFirst changelogMarker c = some (b, a) →
      prependChangelogFile ⟨some tmpl, false⟩ cs [] fs =
        { fs := fs.setFile tmpl
            (b ++ changelogMarker ++ ['\n'] ++ renderBlock cs ++ ['\n'] ++ a)
          ops := [.read tmpl, .mkdirRecursive (parentDir tmpl),
            .write tmpl (b ++ changelogMarker ++ ['\n'] ++ renderBlock cs ++ ['\n'] ++ a)]
          error := none } ∧
      (prependChangelogFile ⟨some tmpl, false⟩ cs [] fs).fs.lookup tmpl =
        .readable (b ++ changelogMarker ++ ['\n'] ++ renderBlock cs ++ ['\n'] ++ a) ∧
      ∀ pe ∈ cs, ∃ u v : Str,
        b ++ changelogMarker ++ ['\n'] ++ renderBlock cs ++ ['\n'] ++ a =
          u ++ pe.2.changelog ++ v := by
  have hres : ∀ (cs : Changeset) (wss : List Workspace),
      resolveTargets (some tmpl) cs wss = [⟨tmpl, cs⟩] := by
    intro cs wss
    simp [resolveTargets, hne, htok]
  refine ⟨hres, ?_⟩
  intro cs fs c b a hread hsplit
  have hins : insert fs ⟨tmpl, cs⟩ false =
      { fs := fs.setFile tmpl
          (b ++ changelogMarker ++ ['\n'] ++ renderBlock cs ++ ['\n'] ++ a)
        ops := [.read tmpl, .mkdirRecursive (parentDir tmpl),
          .write tmpl (b ++ changelogMarker ++ ['\n'] ++ renderBlock cs ++ ['\n'] ++ a)]
        error := none } := by
    rw [@insert_readable_eq fs ⟨tmpl, cs⟩ c b a false hread hsplit]
    rfl
  have hrun : prependChangelogFile ⟨some tmpl, false⟩ cs [] fs =
      { fs := fs.setFile tmpl
          (b ++ changelogMarker ++ ['\n'] ++ renderBlock cs ++ ['\n'] ++ a)
        ops := [.read tmpl, .mkdirRecursive (parentDir tmpl),
          .write tmpl (b ++ changelogMarker ++ ['\n'] ++ renderBlock cs ++ ['\n'] ++ a)]
        error := none } := by
    simp [prependChangelogFile, hres, processTargets, hins]
  refine ⟨hrun, ?_, ?_⟩
  · rw [hrun]
    simp [lookup_setFile_self]
  · intro pe hpe
    rcases renderBlock_contains hpe with ⟨u, v, hu⟩
    exact ⟨b ++ changelogMarker ++ ['\n'] ++ u, v ++ ['\n'] ++ a, by simp [hu]⟩

/-! ## Concrete witnesses -/

/-- Witness for C1 at a concrete file holding the marker between a heading
and an old entry. -/
theorem insert_marker_success_witness :
    FileSystem.lookup fsW1 tW1.path = FileState.readable cW1 ∧
    splitAtFirst changelogMarker cW1 = some (bW1, aW1) ∧
    (insert fsW1 tW1 false).fs.lookup tW1.path =
      FileState.readable
        (bW1 ++ changelogMarker ++ ['\n'] ++ renderBlock tW1.subset ++ ['\n'] ++ aW1) :=
  ⟨by decide, by decide,
    (@insert_marker_success fsW1 tW1 cW1 bW1 aW1 (by decide) (by decide)).2.2.1⟩

/-- Witness for C2 at the test suite's templated two-workspace scenario. -/
theorem resolve_templated_witness :
    strContains tmplC2 packageDirToken = true ∧ tmplC2 ≠ [] ∧
    (runC2.error = none ∧
      fileContains runC2.fs pathC2pkg1 changelogC2pkg1 = true ∧
      fileContains runC2.fs pathC2pkg1 changelogC2pkg2 = false ∧
      fileContains runC2.fs pathC2pkg2 changelogC2pkg2 = true ∧
      fileContains runC2.fs pathC2pkg2 changelogC2pkg1 = false) :=
  ⟨by decide, by decide,
    (@resolve_templated tmplC2 (by decide) (by decide)).2.2.2.2⟩

/-- Witness for C3 at a concrete readable file lacking the marker. -/
theorem insert_missing_marker_witness :
    FileSystem.lookup fsW3 tW3.path = FileState.readable cW3 ∧
    strContains cW3 changelogMarker = false ∧
    insert fsW3 tW3 false =
      { fs := fsW3, ops := [.read tW3.path],
        error := some (.missingMarker tW3.path) } :=
  ⟨by decide, by decide,
    (@insert_missing_marker fsW3 tW3 cW3 false (by decide) (by decide)).1⟩

/-- Witness for C4 at a concrete unreadable file. -/
theorem insert_unreadable_witness :
    FileSystem.lookup fsW4 tW4.path = FileState.unreadable ∧
    insert fsW4 tW4 false =
      { fs := fsW4, ops := [.read tW4.path],
        error := some (.unreadableFile tW4.path) } :=
  ⟨by decide, (@insert_unreadable fsW4 tW4 false (by decide)).1⟩

/-- Witness for C5 at a concrete marker-only file in dry-run mode. -/
theorem insert_dry_run_witness :
    FileSystem.lookup fsW5 tW5.path = FileState.readable cW5 ∧
    strContains cW5 changelogMarker = true ∧
    insert fsW5 tW5 true = { fs := fsW5, ops := [.read tW5.path], error := none } :=
  ⟨by decide, by decide, (@insert_dry_run fsW5 tW5 cW5 (by decide) (by decide)).1⟩

/-- Witness for C6 with a configuration whose changelog filename is absent. -/
theorem prepend_disabled_witness :
    (cfgW6.changelogFilename = none ∨ cfgW6.changelogFilename = some []) ∧
    prependChangelogFile cfgW6 csW1 [] [] = { fs := [], ops := [], error := none } :=
  ⟨Or.inl rfl, @prepend_disabled cfgW6 (Or.inl rfl) csW1 [] []⟩

/-- Witness for C7 at an absent target path with a one-entry subset. -/
theorem insert_creates_file_witness :
    FileSystem.lookup [] tW7.path = FileState.absent ∧
    tW7.subset ≠ [] ∧
    (insert [] tW7 false).fs.lookup tW7.path =
      FileState.readable
        (changelogMarker ++ ['\n'] ++ renderBlock tW7.subset ++ ['\n']) :=
  ⟨by decide, by decide, (@insert_creates_file [] tW7 (by decide) (by decide)).2.2.1⟩

/-- Witness for C8 at a concrete file holding the marker twice; the split is
at the first occurrence. -/
theorem insert_first_occurrence_witness :
    FileSystem.lookup fsW8 tW8.path = FileState.readable cW8 ∧
    splitAtFirst changelogMarker cW8 = some (bW8, aW8) ∧
    cW8 = bW8 ++ changelogMarker ++ aW8 :=
  ⟨by decide, by decide,
    (@insert_first_occurrence fsW8 tW8 cW8 bW8 aW8 (by decide) (by decide)).1⟩

/-- Witness for C9 at a templated filename with an empty workspace set and a
non-empty changeset. -/
theorem resolve_templated_empty_witness :
    strContains tmplC9 packageDirToken = true ∧
    (resolveTargets (some tmplC9) csC9 [] = [] ∧
      prependChangelogFile ⟨some tmplC9, false⟩ csC9 [] [] =
        { fs := [], ops := [], error := none }) :=
  ⟨by decide, @resolve_templated_empty tmplC9 (by decide) csC9 false []⟩

/-- Witness for C10 at a global filename: the workspace set (here non-empty
and unrelated) is ignored by resolution, and a run from an empty workspace
set writes all entries to the single file. -/
theorem resolve_global_witness :
    strContains tmplC10 packageDirToken = false ∧ tmplC10 ≠ [] ∧
    resolveTargets (some tmplC10) csC10 wsC10 = [⟨tmplC10, csC10⟩] ∧
    (prependChangelogFile ⟨some tmplC10, false⟩ csC10 [] fsC10).fs.lookup tmplC10 =
      FileState.readable
        ([] ++ changelogMarker ++ ['\n'] ++ renderBlock csC10 ++ ['\n'] ++ []) :=
  ⟨by decide, by decide,
    (@resolve_global tmplC10 (by decide) (by decide)).1 csC10 wsC10,
    ((@resolve_global tmplC10 (by decide) (by decide)).2 csC10 fsC10
      changelogMarker [] [] (by decide) (by decide)).2.1⟩

end Monodeploy
